import Mathlib

/-!
Shallow embedding of the control-plane resource-lifecycle engine
(`server/resources.go`, `server/registry.go`) and proofs about its
CRUD / atomic-update behaviour.

Modelling conventions:
* Protobuf dynamic messages are modelled as a descriptor plus an
  association list of present fields (`Msg`).  Proto3 field presence
  is modelled by membership in the list; `Get` on an absent field
  yields the proto default (empty string / no timestamp).
* Timestamps are natural-number instants; RFC3339 formatting/parsing
  is modelled as the identity on those instants.
* A `protoreflect` operation on a nil field descriptor panics in Go;
  panics are modelled by the `Outcome.panics` constructor.
* `google.protobuf.Any` type URLs are modelled by the message full
  name, exactly as the feature tests exercise them via protojson.
* The SQL layer is modelled by per-table row lists; a `SELECT` builds
  the list of column values named in the query, and `Scan` demands
  exactly the destination arity of `scanResource` (a mismatch is a
  scan error, as in `database/sql`).
* The code never calls `tx.Rollback()`; transaction disposition is
  tracked by `TxEnd` (`rolledBack` exists but is never produced).
-/

/-- google.api.field_behavior values used by the engine. -/
inductive FieldBehavior
  | REQUIRED
  | OUTPUT_ONLY
  | IMMUTABLE
  deriving DecidableEq, Repr

/-- A dynamic field value: proto string or timestamp message. -/
inductive FieldVal
  | str (s : String)
  | ts (t : Nat)
  deriving DecidableEq, Repr

/-- A field descriptor: name plus google.api.field_behavior list
(an empty list models a field with no behavior extension). -/
structure FieldDescr where
  name : String
  behaviors : List FieldBehavior
  deriving DecidableEq, Repr

/-- A message descriptor: full name, `google.api.resource` data
(`singular` drives the backing-table name; `resourceAnnotated` models
presence of the resource extension) and the field list. -/
structure MessageDescr where
  fullName : String
  singular : String
  resourceAnnotated : Bool
  fields : List FieldDescr
  deriving DecidableEq, Repr

/-- A dynamic message: its descriptor and the fields currently set. -/
structure Msg where
  descr : MessageDescr
  values : List (String × FieldVal)
  deriving DecidableEq, Repr

/-- Association-list lookup keyed by strings. -/
def lookupA {α : Type} : List (String × α) → String → Option α
  | [], _ => none
  | (k, v) :: t, n => if k = n then some v else lookupA t n

/-- Remove every binding of a key from an association list. -/
def removeKeyA {α : Type} : List (String × α) → String → List (String × α)
  | [], _ => []
  | (k, v) :: t, n => if k = n then removeKeyA t n else (k, v) :: removeKeyA t n

/-- `Descriptor().Fields().ByName(n)` — `none` models a nil descriptor. -/
def fieldByName (d : MessageDescr) (n : String) : Option FieldDescr :=
  d.fields.find? (fun f => f.name = n)

/-- `protoreflect` `Set` (with a valid field descriptor): overwrite the field. -/
def msgSet (m : Msg) (n : String) (v : FieldVal) : Msg :=
  ⟨m.descr, (n, v) :: removeKeyA m.values n⟩

/-- `protoreflect` `Clear` (with a valid field descriptor). -/
def msgClear (m : Msg) (n : String) : Msg :=
  ⟨m.descr, removeKeyA m.values n⟩

/-- Field presence / value: `some` iff the field is set on the message. -/
def msgGet (m : Msg) (n : String) : Option FieldVal :=
  lookupA m.values n

/-- `Get(field).String()`: the string value, or the proto default "". -/
def msgGetStr (m : Msg) (n : String) : String :=
  match msgGet m n with
  | some (FieldVal.str s) => s
  | _ => ""

/-- `Get(field)...AsTime()`: the timestamp value, or the zero instant. -/
def getTs (m : Msg) (n : String) : Nat :=
  match msgGet m n with
  | some (FieldVal.ts t) => t
  | _ => 0

/-- `Set` through `Fields().ByName(n)`: `none` models the Go panic on a
nil field descriptor. -/
def msgSetF (m : Msg) (n : String) (v : FieldVal) : Option Msg :=
  match fieldByName m.descr n with
  | none => none
  | some _ => some (msgSet m n v)

/-- The engine's error taxonomy (gRPC status codes in the source). -/
inductive EngineError
  | unknownType (t : String)
  | notFound
  | alreadyExists
  | aborted
  | scanError
  | schemaError
  deriving DecidableEq, Repr

/-- Result of an engine operation: success, a returned error, or a Go
panic (nil-field-descriptor reflection). -/
inductive Outcome (α : Type)
  | ok (a : α)
  | err (e : EngineError)
  | panics
  deriving DecidableEq, Repr

/-- How a database transaction ended.  The source never calls
`tx.Rollback()`, so `rolledBack` is never produced by any operation. -/
inductive TxEnd
  | committed
  | leftOpen
  | rolledBack
  | noTx
  deriving DecidableEq, Repr

/-- A persisted row: the seven columns of a resource table.  `data` is
the stored payload blob (serialization is injective, so the blob is
modelled by the stripped message itself). -/
structure Row where
  uid : String
  name : String
  parent : String
  createTime : Nat
  updateTime : Nat
  deleteTime : Option Nat
  data : Msg
  deriving DecidableEq, Repr

/-- The server state: the registered-descriptor map and the database
tables (table name → rows). -/
structure ServerState where
  resources : List (String × MessageDescr)
  tables : List (String × List Row)
  deriving DecidableEq, Repr

/-- `getResourceTableName`: `<singular>_resource`. -/
def getResourceTableName (d : MessageDescr) : String :=
  d.singular ++ "_resource"

/-- Rows of a table (a table that was never created has no rows). -/
def tableRows (st : ServerState) (tname : String) : List Row :=
  (lookupA st.tables tname).getD []

/-- Replace the rows of a table. -/
def setTable (tables : List (String × List Row)) (tname : String) (rows : List Row) :
    List (String × List Row) :=
  (tname, rows) :: removeKeyA tables tname

/-- `INSERT` of a single row. -/
def insertRow (st : ServerState) (tname : String) (row : Row) : ServerState :=
  ⟨st.resources, setTable st.tables tname (tableRows st tname ++ [row])⟩

/-- A value produced by a `SELECT` column. -/
inductive SqlValue
  | s (v : String)
  | time (t : Nat)
  | tnull
  | payload (m : Msg)
  deriving DecidableEq, Repr

/-- The value a named column holds for a row. -/
def colValue (r : Row) : String → SqlValue
  | "uid" => SqlValue.s r.uid
  | "name" => SqlValue.s r.name
  | "parent" => SqlValue.s r.parent
  | "create_time" => SqlValue.time r.createTime
  | "update_time" => SqlValue.time r.updateTime
  | "delete_time" =>
    match r.deleteTime with
    | some t => SqlValue.time t
    | none => SqlValue.tnull
  | "data" => SqlValue.payload r.data
  | _ => SqlValue.tnull

/-- The result row of a `SELECT` with the given column list. -/
def selectVals (cols : List String) (r : Row) : List SqlValue :=
  cols.map (colValue r)

/-- Column list of the `getResource` query (seven columns). -/
def getQueryCols : List String :=
  ["uid", "name", "parent", "create_time", "update_time", "delete_time", "data"]

/-- Column list of the `ListResources` query, transcribed from the
source: it names six columns and omits `delete_time`. -/
def listQueryCols : List String :=
  ["uid", "name", "parent", "create_time", "update_time", "data"]

/-- `scanResource`: scan the seven destinations, unmarshal the payload
and stamp the server-owned fields onto it (`Set` panics when the
payload's type lacks the field being set).  A result-set arity or
column-type mismatch is a `database/sql` scan error. -/
def scanResource (vals : List SqlValue) : Outcome Msg :=
  match vals with
  | [SqlValue.s uid, SqlValue.s nm, SqlValue.s _parent, SqlValue.time ct,
     SqlValue.time ut, dtv, SqlValue.payload data] =>
    match msgSetF data "uid" (FieldVal.str uid) with
    | none => Outcome.panics
    | some m1 =>
      match msgSetF m1 "name" (FieldVal.str nm) with
      | none => Outcome.panics
      | some m2 =>
        match (match dtv with
               | SqlValue.time t => msgSetF m2 "delete_time" (FieldVal.ts t)
               | _ => some m2) with
        | none => Outcome.panics
        | some m3 =>
          match msgSetF m3 "create_time" (FieldVal.ts ct) with
          | none => Outcome.panics
          | some m4 =>
            match msgSetF m4 "update_time" (FieldVal.ts ut) with
            | none => Outcome.panics
            | some m5 => Outcome.ok m5
  | _ => Outcome.err EngineError.scanError

/-- Loop body of `clearOutputOnlyFields`: clear the field when its
behavior list contains OUTPUT_ONLY, otherwise skip it. -/
def clearStep (acc : Msg) (f : FieldDescr) : Msg :=
  if FieldBehavior.OUTPUT_ONLY ∈ f.behaviors then msgClear acc f.name else acc

/-- `clearOutputOnlyFields`: clone the message and clear every field
whose behavior list contains OUTPUT_ONLY. -/
def clearOutputOnlyFields (m : Msg) : Msg :=
  m.descr.fields.foldl clearStep m

/-- `updatesConflict`: no etag field means no conflict; otherwise the
two string etags must agree. -/
def updatesConflict (existing updated : Msg) : Bool :=
  match fieldByName existing.descr "etag" with
  | none => false
  | some _ => msgGetStr existing "etag" ≠ msgGetStr updated "etag"

/-- `getResourceDeletion`: the delete_time column value of the UPDATE
clause (`none` models the Go panic when the type lacks the field;
`some none` is `delete_time = NULL`). -/
def getResourceDeletion (resource : Msg) : Option (Option Nat) :=
  match fieldByName resource.descr "delete_time" with
  | none => none
  | some _ =>
    some (match msgGet resource "delete_time" with
          | some (FieldVal.ts t) => some t
          | _ => none)

/-- `CreateResourceDescriptor`: reject a type without the
google.api.resource annotation, otherwise create the backing table
(if it does not already exist) and record the descriptor. -/
def CreateResourceDescriptor (st : ServerState) (d : MessageDescr) :
    Except EngineError ServerState :=
  if d.resourceAnnotated = false then
    Except.error EngineError.schemaError
  else
    let tname := getResourceTableName d
    let tables :=
      match lookupA st.tables tname with
      | some _ => st.tables
      | none => (tname, ([] : List Row)) :: st.tables
    Except.ok ⟨(d.fullName, d) :: removeKeyA st.resources d.fullName, tables⟩

/-- `GetResourceDescriptor`: registry lookup. -/
def GetResourceDescriptor (st : ServerState) (resourceType : String) :
    Option MessageDescr :=
  lookupA st.resources resourceType

/-- `assertRegisteredResourceType`, transcribed from the source:
returns success (`none`) when the lookup yields nil and the
unknown-resource-type error when a descriptor is found. -/
def assertRegisteredResourceType (st : ServerState) (resourceType : String) :
    Option EngineError :=
  match lookupA st.resources resourceType with
  | none => none
  | some _ => some (EngineError.unknownType resourceType)

/-- `getResource` (the transactional read shared by Get, Create's
existence check and the atomic update protocol): resolve the
descriptor, select all seven columns by name, NotFound when no row
matches, otherwise scan the row.  There is no filter on delete_time. -/
def getResource (st : ServerState) (name resourceType : String) : Outcome Msg :=
  match lookupA st.resources resourceType with
  | none => Outcome.err (EngineError.unknownType resourceType)
  | some d =>
    match (tableRows st (getResourceTableName d)).find? (fun r => r.name = name) with
    | none => Outcome.err EngineError.notFound
    | some row => scanResource (selectVals getQueryCols row)

/-- `GetResource`: the RPC entry point delegates to `getResource`. -/
def GetResource (st : ServerState) (name resourceType : String) : Outcome Msg :=
  getResource st name resourceType

/-- Scan loop of `ListResources` over the result set. -/
def scanRows : List Row → Outcome (List Msg)
  | [] => Outcome.ok []
  | r :: rs =>
    match scanResource (selectVals listQueryCols r) with
    | Outcome.ok m =>
      match scanRows rs with
      | Outcome.ok ms => Outcome.ok (m :: ms)
      | Outcome.err e => Outcome.err e
      | Outcome.panics => Outcome.panics
    | Outcome.err e => Outcome.err e
    | Outcome.panics => Outcome.panics

/-- `ListResources`: default page size 50, rows whose parent matches,
bounded by the page size, each decoded by `scanResource` against the
six-column result set of the List query. -/
def ListResources (st : ServerState) (parent resourceType : String) (pageSize : Nat) :
    Outcome (List Msg) :=
  match lookupA st.resources resourceType with
  | none => Outcome.err (EngineError.unknownType resourceType)
  | some d =>
    let ps := if pageSize = 0 then 50 else pageSize
    scanRows
      (((tableRows st (getResourceTableName d)).filter (fun r => r.parent = parent)).take ps)

/-- `CreateResource`: check registration, stamp uid / create_time
(and update_time when the field exists), strip output-only fields for
the payload, then — inside a transaction — fail AlreadyExists when a
row with the same name exists, otherwise insert and commit.  Error
paths after BeginTx return without a rollback. -/
def CreateResource (st : ServerState) (uidGen : String) (now : Nat)
    (parent : String) (res : Msg) : Outcome Msg × TxEnd × ServerState :=
  match lookupA st.resources res.descr.fullName with
  | none => (Outcome.err (EngineError.unknownType res.descr.fullName), TxEnd.noTx, st)
  | some _ =>
    match msgSetF res "uid" (FieldVal.str uidGen) with
    | none => (Outcome.panics, TxEnd.noTx, st)
    | some r1 =>
      match msgSetF r1 "create_time" (FieldVal.ts now) with
      | none => (Outcome.panics, TxEnd.noTx, st)
      | some r2 =>
        let r3 := if (fieldByName r2.descr "update_time").isSome
                  then msgSet r2 "update_time" (FieldVal.ts now) else r2
        let payload := clearOutputOnlyFields r3
        match fieldByName r3.descr "name" with
        | none => (Outcome.panics, TxEnd.leftOpen, st)
        | some _ =>
          let nm := msgGetStr r3 "name"
          match getResource st nm res.descr.fullName with
          | Outcome.ok _ => (Outcome.err EngineError.alreadyExists, TxEnd.leftOpen, st)
          | Outcome.panics => (Outcome.panics, TxEnd.leftOpen, st)
          | Outcome.err EngineError.notFound =>
            match fieldByName r3.descr "update_time" with
            | none => (Outcome.panics, TxEnd.leftOpen, st)
            | some _ =>
              let row : Row :=
                ⟨msgGetStr r3 "uid", nm, parent, getTs r3 "create_time",
                 getTs r3 "update_time", none, payload⟩
              (Outcome.ok r3, TxEnd.committed,
               insertRow st (getResourceTableName res.descr) row)
          | Outcome.err e => (Outcome.err e, TxEnd.leftOpen, st)

/-- Rows touched by the atomic update's single UPDATE statement. -/
def updateRows (rows : List Row) (whereName : String) (ut : Nat)
    (dt : Option Nat) (payload : Msg) : List Row :=
  rows.map fun r =>
    if r.name = whereName then
      { r with updateTime := ut, deleteTime := dt, data := payload }
    else r

/-- `atomicUpdateResource`: the transactional read-modify-write
primitive.  Resolve the descriptor, read the existing row in the
transaction, run the updater, check the etag conflict, stamp
update_time when declared, strip output-only fields for the payload,
and issue the UPDATE keyed by the updated value's name.  Error paths
after BeginTx return without a rollback. -/
def atomicUpdateResource (st : ServerState) (now : Nat)
    (resourceName resourceType : String) (updater : Msg → Outcome Msg) :
    Outcome Msg × TxEnd × ServerState :=
  match lookupA st.resources resourceType with
  | none => (Outcome.err (EngineError.unknownType resourceType), TxEnd.noTx, st)
  | some d =>
    match getResource st resourceName resourceType with
    | Outcome.err e => (Outcome.err e, TxEnd.leftOpen, st)
    | Outcome.panics => (Outcome.panics, TxEnd.leftOpen, st)
    | Outcome.ok unpacked =>
      match updater unpacked with
      | Outcome.err e => (Outcome.err e, TxEnd.leftOpen, st)
      | Outcome.panics => (Outcome.panics, TxEnd.leftOpen, st)
      | Outcome.ok updatedResource =>
        if updatesConflict unpacked updatedResource then
          (Outcome.err EngineError.aborted, TxEnd.leftOpen, st)
        else
          let updated2 := if (fieldByName d "update_time").isSome
                          then msgSet updatedResource "update_time" (FieldVal.ts now)
                          else updatedResource
          let payload := clearOutputOnlyFields updated2
          match getResourceDeletion updated2 with
          | none => (Outcome.panics, TxEnd.leftOpen, st)
          | some newDelete =>
            match fieldByName d "update_time" with
            | none => (Outcome.panics, TxEnd.leftOpen, st)
            | some _ =>
              match fieldByName d "name" with
              | none => (Outcome.panics, TxEnd.leftOpen, st)
              | some _ =>
                let tname := getResourceTableName updated2.descr
                let st2 : ServerState :=
                  ⟨st.resources,
                   setTable st.tables tname
                     (updateRows (tableRows st tname) (msgGetStr updated2 "name")
                        (getTs updated2 "update_time") newDelete payload)⟩
                (Outcome.ok updated2, TxEnd.committed, st2)

/-- `fieldmask_utils.StructToStruct`: copy each masked field from src
onto dst. -/
def structToStruct (mask : List String) (src dst : Msg) : Msg :=
  mask.foldl
    (fun acc p =>
      match msgGet src p with
      | some v => msgSet acc p v
      | none => msgClear acc p)
    dst

/-- The mutate callback `UpdateResource` passes to the protocol,
transcribed from the source: both `updatedResource` and
`existingResource` are unmarshalled from the request's resource (the
`existing` argument is never used), the mask-merge writes into the
local `existingResource`, and the unmodified `updatedResource` is
returned. -/
def updateMutate (reqResource : Msg) (mask : List String) : Msg → Outcome Msg :=
  fun _existing =>
    let updatedResource := reqResource
    let existingResource := reqResource
    let _merged := structToStruct mask updatedResource existingResource
    Outcome.ok updatedResource

/-- `UpdateResource`: read the name off the request's resource (a
panic when the type lacks a name field) and delegate to the atomic
update protocol with the mask-merge callback. -/
def UpdateResource (st : ServerState) (now : Nat) (reqResource : Msg)
    (mask : List String) : Outcome Msg × TxEnd × ServerState :=
  match fieldByName reqResource.descr "name" with
  | none => (Outcome.panics, TxEnd.noTx, st)
  | some _ =>
    atomicUpdateResource st now (msgGetStr reqResource "name")
      reqResource.descr.fullName (updateMutate reqResource mask)

/-- The mutate callback of `DeleteResource`: set delete_time to now,
panicking when the type does not declare the field. -/
def deleteMutate (now : Nat) : Msg → Outcome Msg :=
  fun existing =>
    match fieldByName existing.descr "delete_time" with
    | none => Outcome.panics
    | some _ => Outcome.ok (msgSet existing "delete_time" (FieldVal.ts now))

/-- `DeleteResource`: atomic update with the delete-stamp callback.
`nowDelete` is the instant captured inside the callback, `nowUpdate`
the instant of the protocol's update_time stamp. -/
def DeleteResource (st : ServerState) (nowDelete nowUpdate : Nat)
    (name resourceType : String) : Outcome Msg × TxEnd × ServerState :=
  atomicUpdateResource st nowUpdate name resourceType (deleteMutate nowDelete)

/-- The mutate callback of `UndeleteResource`: clear delete_time,
panicking when the type does not declare the field. -/
def undeleteMutate : Msg → Outcome Msg :=
  fun existing =>
    match fieldByName existing.descr "delete_time" with
    | none => Outcome.panics
    | some _ => Outcome.ok (msgClear existing "delete_time")

/-- `UndeleteResource`: atomic update with the clear callback. -/
def UndeleteResource (st : ServerState) (now : Nat) (name resourceType : String) :
    Outcome Msg × TxEnd × ServerState :=
  atomicUpdateResource st now name resourceType undeleteMutate

/-- `PurgeResource`: hard DELETE of the row by name in its own
transaction; zero rows affected is not an error. -/
def PurgeResource (st : ServerState) (name resourceType : String) :
    Outcome Unit × TxEnd × ServerState :=
  match lookupA st.resources resourceType with
  | none => (Outcome.err (EngineError.unknownType resourceType), TxEnd.noTx, st)
  | some d =>
    let tname := getResourceTableName d
    (Outcome.ok (), TxEnd.committed,
     ⟨st.resources, setTable st.tables tname
        ((tableRows st tname).filter (fun r => r.name ≠ name))⟩)

/-- A stored payload is output-only-clean when no OUTPUT_ONLY field of
its type carries a value. -/
def outputOnlyCleared (m : Msg) : Bool :=
  m.descr.fields.all fun f =>
    if FieldBehavior.OUTPUT_ONLY ∈ f.behaviors then (msgGet m f.name).isNone else true

/-- The value Create stamps before persisting, for a type declaring
uid, create_time and update_time. -/
def createStamped (res : Msg) (uidGen : String) (now : Nat) : Msg :=
  msgSet (msgSet (msgSet res "uid" (FieldVal.str uidGen)) "create_time" (FieldVal.ts now))
    "update_time" (FieldVal.ts now)

/-! ### Concrete registered types and states (from `features/resources.proto`
and the feature scenarios), used to evaluate the engine at specific inputs -/

/-- The `features.Account` message of the test schema: resource-annotated,
singular `account`, with the OUTPUT_ONLY / REQUIRED behaviors of its fields. -/
def accountDescr : MessageDescr :=
  { fullName := "features.Account"
    singular := "account"
    resourceAnnotated := true
    fields :=
      [⟨"name", [FieldBehavior.OUTPUT_ONLY]⟩,
       ⟨"display_name", [FieldBehavior.REQUIRED]⟩,
       ⟨"labels", []⟩,
       ⟨"annotations", []⟩,
       ⟨"self_link", [FieldBehavior.OUTPUT_ONLY]⟩,
       ⟨"uid", [FieldBehavior.OUTPUT_ONLY]⟩,
       ⟨"create_time", [FieldBehavior.OUTPUT_ONLY]⟩,
       ⟨"update_time", [FieldBehavior.OUTPUT_ONLY]⟩,
       ⟨"delete_time", [FieldBehavior.OUTPUT_ONLY]⟩] }

/-- Stored payload of the example account: output-only fields stripped. -/
def c1StoredPayload : Msg := ⟨accountDescr, [("display_name", FieldVal.str "Joe")]⟩

/-- The stored row of the example account `accounts/a1`. -/
def c1Row : Row := ⟨"u1", "accounts/a1", "", 1, 1, none, c1StoredPayload⟩

/-- A state with `features.Account` registered and `accounts/a1` stored. -/
def c1State : ServerState :=
  ⟨[("features.Account", accountDescr)], [("account_resource", [c1Row])]⟩

/-- The account `accounts/a1` as decoded by Get (server columns stamped). -/
def c1Existing : Msg :=
  ⟨accountDescr,
   [("update_time", FieldVal.ts 1), ("create_time", FieldVal.ts 1),
    ("name", FieldVal.str "accounts/a1"), ("uid", FieldVal.str "u1"),
    ("display_name", FieldVal.str "Joe")]⟩

/-- An incoming Update request value for `accounts/a1` that changes
`display_name`, used with a mask that does NOT include `display_name`. -/
def c1Incoming : Msg :=
  ⟨accountDescr,
   [("name", FieldVal.str "accounts/a1"), ("display_name", FieldVal.str "Hacked")]⟩

/-- A fresh account value whose name is not stored yet. -/
def c5Fresh : Msg :=
  ⟨accountDescr,
   [("name", FieldVal.str "accounts/b2"), ("display_name", FieldVal.str "Bea")]⟩

/-- The value Create stamps for `c5Fresh` with uid `u9` at instant 9. -/
def c6Value : Msg := createStamped c5Fresh "u9" 9

/-- The row Create inserts for `c5Fresh` (payload stripped of
output-only fields). -/
def c6Row : Row := ⟨"u9", "accounts/b2", "", 9, 9, none, clearOutputOnlyFields c6Value⟩

/-- The state after creating `c5Fresh` in `c1State`. -/
def c6State2 : ServerState := insertRow c1State "account_resource" c6Row

/-- A schema without a `delete_time` field (legal to register: Delete is
what breaks on it). -/
def gadgetDescr : MessageDescr :=
  { fullName := "features.Gadget"
    singular := "gadget"
    resourceAnnotated := true
    fields :=
      [⟨"name", []⟩,
       ⟨"display_name", []⟩,
       ⟨"uid", [FieldBehavior.OUTPUT_ONLY]⟩,
       ⟨"create_time", [FieldBehavior.OUTPUT_ONLY]⟩,
       ⟨"update_time", [FieldBehavior.OUTPUT_ONLY]⟩] }

/-- A stored gadget row. -/
def gadgetRow : Row := ⟨"g1", "gadgets/g1", "", 1, 1, none, ⟨gadgetDescr, []⟩⟩

/-- A state with `features.Gadget` registered and one gadget stored. -/
def gadgetState : ServerState :=
  ⟨[("features.Gadget", gadgetDescr)], [("gadget_resource", [gadgetRow])]⟩

/-- The stored gadget as decoded by Get. -/
def gadgetExisting : Msg :=
  ⟨gadgetDescr,
   [("update_time", FieldVal.ts 1), ("create_time", FieldVal.ts 1),
    ("name", FieldVal.str "gadgets/g1"), ("uid", FieldVal.str "g1")]⟩

/-- A schema with an `etag` concurrency token. -/
def docDescr : MessageDescr :=
  { fullName := "features.Doc"
    singular := "doc"
    resourceAnnotated := true
    fields :=
      [⟨"name", [FieldBehavior.OUTPUT_ONLY]⟩,
       ⟨"etag", []⟩,
       ⟨"uid", [FieldBehavior.OUTPUT_ONLY]⟩,
       ⟨"create_time", [FieldBehavior.OUTPUT_ONLY]⟩,
       ⟨"update_time", [FieldBehavior.OUTPUT_ONLY]⟩,
       ⟨"delete_time", [FieldBehavior.OUTPUT_ONLY]⟩] }

/-- A stored doc row whose payload carries etag `v1`. -/
def docRow : Row := ⟨"d1", "docs/d1", "", 1, 1, none, ⟨docDescr, [("etag", FieldVal.str "v1")]⟩⟩

/-- A state with `features.Doc` registered and one doc stored. -/
def docState : ServerState :=
  ⟨[("features.Doc", docDescr)], [("doc_resource", [docRow])]⟩

/-- The stored doc as decoded by Get. -/
def docExisting : Msg :=
  ⟨docDescr,
   [("update_time", FieldVal.ts 1), ("create_time", FieldVal.ts 1),
    ("name", FieldVal.str "docs/d1"), ("uid", FieldVal.str "d1"),
    ("etag", FieldVal.str "v1")]⟩

/-- An updater that writes a different etag than the stored one. -/
def docUpdater : Msg → Outcome Msg :=
  fun m => Outcome.ok (msgSet m "etag" (FieldVal.str "v2"))

/-- The identity updater (an Undelete on a live resource behaves like it). -/
def idUpdater : Msg → Outcome Msg := fun m => Outcome.ok m

/-- The value returned by deleting `accounts/a1` at delete-instant 3 and
update-instant 4. -/
def c7DeletedValue : Msg :=
  msgSet (msgSet c1Existing "delete_time" (FieldVal.ts 3)) "update_time" (FieldVal.ts 4)

/-- The state after that soft delete: the row carries `deleteTime = 3`. -/
def c7DeletedState : ServerState :=
  ⟨[("features.Account", accountDescr)],
   [("account_resource", [⟨"u1", "accounts/a1", "", 1, 4, some 3, c1StoredPayload⟩])]⟩

/-- A message type with no resource annotation (rejected at registration). -/
def plainDescr : MessageDescr :=
  { fullName := "features.Plain", singular := "plain",
    resourceAnnotated := false, fields := [] }

/-- The empty server state. -/
def emptyState : ServerState := ⟨[], []⟩

/-! ### Lemmas about association lists and message operations -/

theorem lookupA_removeKeyA {α : Type} (l : List (String × α)) (k n : String) :
    lookupA (removeKeyA l k) n = if n = k then none else lookupA l n := by
  induction l with
  | nil => simp [removeKeyA, lookupA]
  | cons hd tl ih =>
    rcases hd with ⟨hk, hv⟩
    by_cases h1 : hk = k <;> by_cases h2 : hk = n <;>
      simp_all [removeKeyA, lookupA]

theorem msgSet_descr (m : Msg) (n : String) (v : FieldVal) :
    (msgSet m n v).descr = m.descr := rfl

theorem msgClear_descr (m : Msg) (n : String) :
    (msgClear m n).descr = m.descr := rfl

theorem msgGet_msgSet (m : Msg) (n x : String) (v : FieldVal) :
    msgGet (msgSet m n v) x = if n = x then some v else msgGet m x := by
  by_cases h : n = x
  · simp [msgGet, msgSet, lookupA, h]
  · simp [msgGet, msgSet, lookupA, h, lookupA_removeKeyA, Ne.symm h]

theorem msgGet_msgClear (m : Msg) (n x : String) :
    msgGet (msgClear m n) x = if x = n then none else msgGet m x := by
  simp [msgGet, msgClear, lookupA_removeKeyA]

theorem msgGetStr_msgSet_ne (m : Msg) {n x : String} (v : FieldVal) (h : n ≠ x) :
    msgGetStr (msgSet m n v) x = msgGetStr m x := by
  simp [msgGetStr, msgGet_msgSet, h]

theorem msgGetStr_msgSet_self (m : Msg) (n s : String) :
    msgGetStr (msgSet m n (FieldVal.str s)) n = s := by
  simp [msgGetStr, msgGet_msgSet]

theorem getTs_msgSet_self (m : Msg) (n : String) (t : Nat) :
    getTs (msgSet m n (FieldVal.ts t)) n = t := by
  simp [getTs, msgGet_msgSet]

theorem getTs_msgSet_ne (m : Msg) {n x : String} (v : FieldVal) (h : n ≠ x) :
    getTs (msgSet m n v) x = getTs m x := by
  simp [getTs, msgGet_msgSet, h]

theorem clearFold_descr (fs : List FieldDescr) (acc : Msg) :
    (fs.foldl clearStep acc).descr = acc.descr := by
  induction fs generalizing acc with
  | nil => rfl
  | cons f fs ih =>
    simp only [List.foldl, ih]
    by_cases h : FieldBehavior.OUTPUT_ONLY ∈ f.behaviors <;>
      simp [clearStep, h, msgClear_descr]

theorem clearOutputOnlyFields_descr (m : Msg) :
    (clearOutputOnlyFields m).descr = m.descr :=
  clearFold_descr _ _

theorem clearFold_get_none (fs : List FieldDescr) (acc : Msg) (n : String)
    (h : msgGet acc n = none) :
    msgGet (fs.foldl clearStep acc) n = none := by
  induction fs generalizing acc with
  | nil => exact h
  | cons f fs ih =>
    simp only [List.foldl]
    apply ih
    by_cases hb : FieldBehavior.OUTPUT_ONLY ∈ f.behaviors
    · simp only [clearStep, hb, if_true, msgGet_msgClear]
      split
      · rfl
      · exact h
    · simpa [clearStep, hb] using h

theorem clearFold_mem_none (fs : List FieldDescr) (acc : Msg) (f : FieldDescr)
    (hf : f ∈ fs) (hb : FieldBehavior.OUTPUT_ONLY ∈ f.behaviors) :
    msgGet (fs.foldl clearStep acc) f.name = none := by
  induction fs generalizing acc with
  | nil => cases hf
  | cons g gs ih =>
    simp only [List.foldl]
    rcases List.mem_cons.mp hf with h | h
    · subst h
      apply clearFold_get_none
      simp [clearStep, hb, msgGet_msgClear]
    · exact ih (clearStep acc g) h

theorem msgGet_clearOutputOnlyFields (m : Msg) (f : FieldDescr)
    (hf : f ∈ m.descr.fields) (hb : FieldBehavior.OUTPUT_ONLY ∈ f.behaviors) :
    msgGet (clearOutputOnlyFields m) f.name = none :=
  clearFold_mem_none _ _ _ hf hb

theorem outputOnlyCleared_clearOutputOnlyFields (m : Msg) :
    outputOnlyCleared (clearOutputOnlyFields m) = true := by
  simp only [outputOnlyCleared, List.all_eq_true, clearOutputOnlyFields_descr]
  intro f hf
  by_cases hb : FieldBehavior.OUTPUT_ONLY ∈ f.behaviors
  · simp [hb, msgGet_clearOutputOnlyFields m f hf hb]
  · simp [hb]

theorem removeKeyA_removeKeyA {α : Type} (l : List (String × α)) (k : String) :
    removeKeyA (removeKeyA l k) k = removeKeyA l k := by
  induction l with
  | nil => rfl
  | cons hd tl ih =>
    rcases hd with ⟨hk, hv⟩
    by_cases h : hk = k <;> simp [removeKeyA, h, ih]

theorem msgSetF_eq_some {m : Msg} {n : String} {v : FieldVal} {m2 : Msg}
    (h : msgSetF m n v = some m2) :
    (fieldByName m.descr n).isSome ∧ m2 = msgSet m n v := by
  unfold msgSetF at h
  cases hf : fieldByName m.descr n with
  | none => rw [hf] at h; cases h
  | some f =>
    rw [hf] at h
    exact ⟨by simp [hf], (Option.some.inj h).symm⟩

theorem selectVals_getQueryCols (r : Row) :
    selectVals getQueryCols r =
      [SqlValue.s r.uid, SqlValue.s r.name, SqlValue.s r.parent,
       SqlValue.time r.createTime, SqlValue.time r.updateTime,
       (match r.deleteTime with
        | some t => SqlValue.time t
        | none => SqlValue.tnull),
       SqlValue.payload r.data] := rfl

theorem selectVals_listQueryCols (r : Row) :
    selectVals listQueryCols r =
      [SqlValue.s r.uid, SqlValue.s r.name, SqlValue.s r.parent,
       SqlValue.time r.createTime, SqlValue.time r.updateTime,
       SqlValue.payload r.data] := rfl

theorem scanResource_row (r : Row) :
    scanResource (selectVals getQueryCols r) =
      match msgSetF r.data "uid" (FieldVal.str r.uid) with
      | none => Outcome.panics
      | some m1 =>
        match msgSetF m1 "name" (FieldVal.str r.name) with
        | none => Outcome.panics
        | some m2 =>
          match (match r.deleteTime with
                 | some t => msgSetF m2 "delete_time" (FieldVal.ts t)
                 | none => some m2) with
          | none => Outcome.panics
          | some m3 =>
            match msgSetF m3 "create_time" (FieldVal.ts r.createTime) with
            | none => Outcome.panics
            | some m4 =>
              match msgSetF m4 "update_time" (FieldVal.ts r.updateTime) with
              | none => Outcome.panics
              | some m5 => Outcome.ok m5 := by
  rcases r with ⟨uid, nm, parent, ct, ut, dt, data⟩
  cases dt <;> rfl

theorem scanResource_listRow (r : Row) :
    scanResource (selectVals listQueryCols r) = Outcome.err EngineError.scanError := by
  rw [selectVals_listQueryCols]
  rfl

theorem updRow_name (wn : String) (ut : Nat) (dt : Option Nat) (p : Msg) (r : Row) :
    (if r.name = wn then { r with updateTime := ut, deleteTime := dt, data := p }
     else r).name = r.name := by
  split <;> rfl

theorem find?_map_eq (f : Row → Row) (hf : ∀ r, (f r).name = r.name)
    (l : List Row) (n : String) :
    (l.map f).find? (fun r => r.name = n) = (l.find? (fun r => r.name = n)).map f := by
  induction l with
  | nil => rfl
  | cons r rs ih =>
    simp only [List.map_cons, List.find?_cons, hf]
    by_cases h : r.name = n <;> simp [h, ih]

theorem tableRows_setTable_self (res : List (String × MessageDescr))
    (tbls : List (String × List Row)) (k : String) (rows : List Row) :
    tableRows ⟨res, setTable tbls k rows⟩ k = rows := by
  simp [tableRows, setTable, lookupA]

theorem lookupA_setTable_ne (tbls : List (String × List Row)) (k n : String)
    (rows : List Row) (h : n ≠ k) :
    lookupA (setTable tbls k rows) n = lookupA tbls n := by
  simp [setTable, lookupA, Ne.symm h, lookupA_removeKeyA, h]

theorem msgSetF_of_isSome {m : Msg} {n : String} (v : FieldVal)
    (h : (fieldByName m.descr n).isSome) :
    msgSetF m n v = some (msgSet m n v) := by
  unfold msgSetF
  obtain ⟨f, hf⟩ := Option.isSome_iff_exists.mp h
  rw [hf]

theorem getResource_lookup {st : ServerState} {nm typ : String} {m : Msg}
    (h : getResource st nm typ = Outcome.ok m) :
    ∃ d, lookupA st.resources typ = some d := by
  unfold getResource at h
  cases hl : lookupA st.resources typ with
  | none => rw [hl] at h; cases h
  | some d => exact ⟨d, rfl⟩

theorem scanResource_ne_notFound (vals : List SqlValue) :
    scanResource vals ≠ Outcome.err EngineError.notFound := by
  unfold scanResource
  repeat' split
  all_goals simp

theorem scanResource_row_none (r : Row) (hdt : r.deleteTime = none) :
    scanResource (selectVals getQueryCols r) =
      match msgSetF r.data "uid" (FieldVal.str r.uid) with
      | none => Outcome.panics
      | some m1 =>
        match msgSetF m1 "name" (FieldVal.str r.name) with
        | none => Outcome.panics
        | some m2 =>
          match msgSetF m2 "create_time" (FieldVal.ts r.createTime) with
          | none => Outcome.panics
          | some m4 =>
            match msgSetF m4 "update_time" (FieldVal.ts r.updateTime) with
            | none => Outcome.panics
            | some m5 => Outcome.ok m5 := by
  rcases r with ⟨uid, nm, parent, ct, ut, dt, data⟩
  simp only at hdt
  subst hdt
  rfl

theorem scanResource_row_some (r : Row) (t : Nat) (hdt : r.deleteTime = some t) :
    scanResource (selectVals getQueryCols r) =
      match msgSetF r.data "uid" (FieldVal.str r.uid) with
      | none => Outcome.panics
      | some m1 =>
        match msgSetF m1 "name" (FieldVal.str r.name) with
        | none => Outcome.panics
        | some m2 =>
          match msgSetF m2 "delete_time" (FieldVal.ts t) with
          | none => Outcome.panics
          | some m3 =>
            match msgSetF m3 "create_time" (FieldVal.ts r.createTime) with
            | none => Outcome.panics
            | some m4 =>
              match msgSetF m4 "update_time" (FieldVal.ts r.updateTime) with
              | none => Outcome.panics
              | some m5 => Outcome.ok m5 := by
  rcases r with ⟨uid, nm, parent, ct, ut, dt, data⟩
  simp only at hdt
  subst hdt
  rfl

theorem scan_ok_spec (r : Row) (m : Msg)
    (h : scanResource (selectVals getQueryCols r) = Outcome.ok m) :
    m.descr = r.data.descr ∧
    (fieldByName r.data.descr "uid").isSome ∧
    (fieldByName r.data.descr "name").isSome ∧
    (fieldByName r.data.descr "create_time").isSome ∧
    (fieldByName r.data.descr "update_time").isSome ∧
    msgGetStr m "name" = r.name ∧
    (∀ t, r.deleteTime = some t → msgGet m "delete_time" = some (FieldVal.ts t)) := by
  cases hdt : r.deleteTime with
  | none =>
    rw [scanResource_row_none r hdt] at h
    cases h1 : msgSetF r.data "uid" (FieldVal.str r.uid) with
    | none => simp [h1] at h
    | some m1 =>
    simp only [h1] at h
    cases h2 : msgSetF m1 "name" (FieldVal.str r.name) with
    | none => simp [h2] at h
    | some m2 =>
    simp only [h2] at h
    cases h3 : msgSetF m2 "create_time" (FieldVal.ts r.createTime) with
    | none => simp [h3] at h
    | some m4 =>
    simp only [h3] at h
    cases h4 : msgSetF m4 "update_time" (FieldVal.ts r.updateTime) with
    | none => simp [h4] at h
    | some m5 =>
    simp only [h4] at h
    obtain ⟨p1, e1⟩ := msgSetF_eq_some h1
    obtain ⟨p2, e2⟩ := msgSetF_eq_some h2
    obtain ⟨p3, e3⟩ := msgSetF_eq_some h3
    obtain ⟨p4, e4⟩ := msgSetF_eq_some h4
    subst e1 e2 e3 e4
    rw [Outcome.ok.injEq] at h
    subst h
    rw [msgSet_descr] at p2
    rw [msgSet_descr, msgSet_descr] at p3
    rw [msgSet_descr, msgSet_descr, msgSet_descr] at p4
    refine ⟨by simp [msgSet_descr], p1, p2, p3, p4, ?_, ?_⟩
    · simp [msgGetStr, msgGet_msgSet]
    · intro t ht
      cases ht
  | some t0 =>
    rw [scanResource_row_some r t0 hdt] at h
    cases h1 : msgSetF r.data "uid" (FieldVal.str r.uid) with
    | none => simp [h1] at h
    | some m1 =>
    simp only [h1] at h
    cases h2 : msgSetF m1 "name" (FieldVal.str r.name) with
    | none => simp [h2] at h
    | some m2 =>
    simp only [h2] at h
    cases hdel : msgSetF m2 "delete_time" (FieldVal.ts t0) with
    | none => simp [hdel] at h
    | some m3 =>
    simp only [hdel] at h
    cases h3 : msgSetF m3 "create_time" (FieldVal.ts r.createTime) with
    | none => simp [h3] at h
    | some m4 =>
    simp only [h3] at h
    cases h4 : msgSetF m4 "update_time" (FieldVal.ts r.updateTime) with
    | none => simp [h4] at h
    | some m5 =>
    simp only [h4] at h
    obtain ⟨p1, e1⟩ := msgSetF_eq_some h1
    obtain ⟨p2, e2⟩ := msgSetF_eq_some h2
    obtain ⟨pd, ed⟩ := msgSetF_eq_some hdel
    obtain ⟨p3, e3⟩ := msgSetF_eq_some h3
    obtain ⟨p4, e4⟩ := msgSetF_eq_some h4
    subst e1 e2 ed e3 e4
    rw [Outcome.ok.injEq] at h
    subst h
    rw [msgSet_descr] at p2
    rw [msgSet_descr, msgSet_descr, msgSet_descr] at p3
    rw [msgSet_descr, msgSet_descr, msgSet_descr, msgSet_descr] at p4
    refine ⟨by simp [msgSet_descr], p1, p2, p3, p4, ?_, ?_⟩
    · simp [msgGetStr, msgGet_msgSet]
    · intro t ht
      injection ht with htt
      subst htt
      simp [msgGet_msgSet]

theorem scan_ok_build (r : Row)
    (h1 : (fieldByName r.data.descr "uid").isSome)
    (h2 : (fieldByName r.data.descr "name").isSome)
    (h3 : (fieldByName r.data.descr "create_time").isSome)
    (h4 : (fieldByName r.data.descr "update_time").isSome)
    (h5 : ∀ t, r.deleteTime = some t → (fieldByName r.data.descr "delete_time").isSome) :
    ∃ m, scanResource (selectVals getQueryCols r) = Outcome.ok m ∧
      msgGetStr m "name" = r.name ∧
      (∀ t, r.deleteTime = some t → msgGet m "delete_time" = some (FieldVal.ts t)) := by
  cases hdt : r.deleteTime with
  | none =>
    rw [scanResource_row_none r hdt]
    simp only [msgSetF_of_isSome (FieldVal.str r.uid) h1]
    have h2a : (fieldByName (msgSet r.data "uid" (FieldVal.str r.uid)).descr "name").isSome := h2
    simp only [msgSetF_of_isSome (FieldVal.str r.name) h2a]
    have h3a : (fieldByName (msgSet (msgSet r.data "uid" (FieldVal.str r.uid)) "name"
        (FieldVal.str r.name)).descr "create_time").isSome := h3
    simp only [msgSetF_of_isSome (FieldVal.ts r.createTime) h3a]
    have h4a : (fieldByName (msgSet (msgSet (msgSet r.data "uid" (FieldVal.str r.uid)) "name"
        (FieldVal.str r.name)) "create_time" (FieldVal.ts r.createTime)).descr
        "update_time").isSome := h4
    simp only [msgSetF_of_isSome (FieldVal.ts r.updateTime) h4a]
    refine ⟨_, rfl, ?_, ?_⟩
    · simp [msgGetStr, msgGet_msgSet]
    · intro t ht
      cases ht
  | some t0 =>
    rw [scanResource_row_some r t0 hdt]
    simp only [msgSetF_of_isSome (FieldVal.str r.uid) h1]
    have h2a : (fieldByName (msgSet r.data "uid" (FieldVal.str r.uid)).descr "name").isSome := h2
    simp only [msgSetF_of_isSome (FieldVal.str r.name) h2a]
    have hda : (fieldByName (msgSet (msgSet r.data "uid" (FieldVal.str r.uid)) "name"
        (FieldVal.str r.name)).descr "delete_time").isSome := h5 t0 hdt
    simp only [msgSetF_of_isSome (FieldVal.ts t0) hda]
    have h3a : (fieldByName (msgSet (msgSet (msgSet r.data "uid" (FieldVal.str r.uid)) "name"
        (FieldVal.str r.name)) "delete_time" (FieldVal.ts t0)).descr "create_time").isSome := h3
    simp only [msgSetF_of_isSome (FieldVal.ts r.createTime) h3a]
    have h4a : (fieldByName (msgSet (msgSet (msgSet (msgSet r.data "uid" (FieldVal.str r.uid))
        "name" (FieldVal.str r.name)) "delete_time" (FieldVal.ts t0)) "create_time"
        (FieldVal.ts r.createTime)).descr "update_time").isSome := h4
    simp only [msgSetF_of_isSome (FieldVal.ts r.updateTime) h4a]
    refine ⟨_, rfl, ?_, ?_⟩
    · simp [msgGetStr, msgGet_msgSet]
    · intro t ht
      injection ht with htt
      subst htt
      simp [msgGet_msgSet]

theorem getResourceDeletion_some {m : Msg} {nd : Option Nat}
    (h : getResourceDeletion m = some nd) :
    (fieldByName m.descr "delete_time").isSome ∧
    nd = (match msgGet m "delete_time" with
          | some (FieldVal.ts t) => some t
          | _ => none) := by
  unfold getResourceDeletion at h
  cases hf : fieldByName m.descr "delete_time" with
  | none => rw [hf] at h; cases h
  | some f =>
    rw [hf] at h
    exact ⟨by simp [hf], (Option.some.inj h).symm⟩

theorem getResource_unfold_found (st : ServerState) (d : MessageDescr)
    (typ nm : String) (r : Row)
    (hreg : lookupA st.resources typ = some d)
    (hfind : (tableRows st (getResourceTableName d)).find? (fun row => row.name = nm) =
      some r) :
    getResource st nm typ = scanResource (selectVals getQueryCols r) := by
  unfold getResource
  simp only [hreg, hfind]

theorem getResource_notFound_iff (st : ServerState) (nm typ : String) :
    getResource st nm typ = Outcome.err EngineError.notFound ↔
      ∃ d, lookupA st.resources typ = some d ∧
        (tableRows st (getResourceTableName d)).find? (fun row => row.name = nm) = none := by
  unfold getResource
  cases hl : lookupA st.resources typ with
  | none => simp
  | some d =>
    cases hf : (tableRows st (getResourceTableName d)).find? (fun row => row.name = nm) with
    | none =>
      simp only [hf]
      simp only [true_iff]
      refine ⟨d, rfl, ?_⟩
      exact hf
    | some r =>
      simp only [hf]
      simp only [scanResource_ne_notFound, false_iff]
      intro hcon
      obtain ⟨d2, hd2, hfind2⟩ := hcon
      rw [← Option.some.inj hd2] at hfind2
      rw [hfind2] at hf
      cases hf

theorem mem_updateRows {rows : List Row} {wn : String} {ut : Nat} {dt : Option Nat}
    {p : Msg} {r : Row} (h : r ∈ updateRows rows wn ut dt p) :
    r ∈ rows ∨ r.data = p := by
  unfold updateRows at h
  obtain ⟨r0, hr0, heq⟩ := List.mem_map.mp h
  by_cases hn : r0.name = wn
  · right
    rw [← heq]
    simp [hn]
  · left
    rw [← heq]
    simpa [hn] using hr0

theorem atomicUpdate_conflict (st : ServerState) (now : Nat) (nm typ : String)
    (updater : Msg → Outcome Msg) (existing updated : Msg)
    (hget : getResource st nm typ = Outcome.ok existing)
    (hupd : updater existing = Outcome.ok updated)
    (hc : updatesConflict existing updated = true) :
    atomicUpdateResource st now nm typ updater =
      (Outcome.err EngineError.aborted, TxEnd.leftOpen, st) := by
  obtain ⟨d, hd⟩ := getResource_lookup hget
  unfold atomicUpdateResource
  simp [hd, hget, hupd, hc]

theorem atomicUpdate_no_conflict_not_aborted (st : ServerState) (now : Nat)
    (nm typ : String) (updater : Msg → Outcome Msg) (existing updated : Msg)
    (hget : getResource st nm typ = Outcome.ok existing)
    (hupd : updater existing = Outcome.ok updated)
    (hc : updatesConflict existing updated = false) :
    (atomicUpdateResource st now nm typ updater).1 ≠ Outcome.err EngineError.aborted := by
  obtain ⟨d, hd⟩ := getResource_lookup hget
  unfold atomicUpdateResource
  simp only [hd, hget, hupd, hc, Bool.false_eq_true, if_false]
  repeat' split
  all_goals simp

theorem atomicUpdate_ok {st : ServerState} {now : Nat} {nm typ : String}
    {updater : Msg → Outcome Msg} {v : Msg} {tx : TxEnd} {st2 : ServerState}
    (h : atomicUpdateResource st now nm typ updater = (Outcome.ok v, tx, st2)) :
    ∃ d existing updated,
      lookupA st.resources typ = some d ∧
      getResource st nm typ = Outcome.ok existing ∧
      updater existing = Outcome.ok updated ∧
      updatesConflict existing updated = false ∧
      (fieldByName d "update_time").isSome ∧
      (fieldByName d "name").isSome ∧
      (fieldByName updated.descr "delete_time").isSome ∧
      v = msgSet updated "update_time" (FieldVal.ts now) ∧
      tx = TxEnd.committed ∧
      st2 = ⟨st.resources,
             setTable st.tables (getResourceTableName v.descr)
               (updateRows (tableRows st (getResourceTableName v.descr))
                  (msgGetStr v "name") (getTs v "update_time")
                  (match msgGet v "delete_time" with
                   | some (FieldVal.ts t) => some t
                   | _ => none)
                  (clearOutputOnlyFields v))⟩ := by
  unfold atomicUpdateResource at h
  cases hd : lookupA st.resources typ with
  | none => rw [hd] at h; simp at h
  | some d =>
  simp only [hd] at h
  cases hget : getResource st nm typ with
  | err e => simp [hget] at h
  | panics => simp [hget] at h
  | ok existing =>
  simp only [hget] at h
  cases hupd : updater existing with
  | err e => simp [hupd] at h
  | panics => simp [hupd] at h
  | ok updated =>
  simp only [hupd] at h
  cases hc : updatesConflict existing updated with
  | true => simp [hc] at h
  | false =>
  simp only [hc, Bool.false_eq_true, if_false] at h
  cases hu : fieldByName d "update_time" with
  | none =>
    simp [hu] at h
    split at h <;> simp_all
  | some fu =>
  simp only [hu, Option.isSome_some, if_true] at h
  cases hdel : getResourceDeletion (msgSet updated "update_time" (FieldVal.ts now)) with
  | none => simp [hdel] at h
  | some newDelete =>
  simp only [hdel] at h
  cases hn : fieldByName d "name" with
  | none => simp [hn] at h
  | some fn =>
  simp only [hn] at h
  rw [Prod.mk.injEq, Prod.mk.injEq] at h
  obtain ⟨hv, htx, hst⟩ := h
  rw [Outcome.ok.injEq] at hv
  subst hv
  subst htx
  obtain ⟨hdelf, hnd⟩ := getResourceDeletion_some hdel
  subst hnd
  exact ⟨d, existing, updated, rfl, rfl, hupd, hc, by simp [hu], by simp [hn],
    hdelf, rfl, rfl, hst.symm⟩

theorem create_ok {st : ServerState} {uidGen : String} {now : Nat} {parent : String}
    {res v : Msg} {tx : TxEnd} {st2 : ServerState}
    (h : CreateResource st uidGen now parent res = (Outcome.ok v, tx, st2)) :
    ∃ row, st2 = insertRow st (getResourceTableName res.descr) row ∧
      row.data = clearOutputOnlyFields v ∧ row.deleteTime = none := by
  unfold CreateResource at h
  cases hl : lookupA st.resources res.descr.fullName with
  | none => simp [hl] at h
  | some d =>
  simp only [hl] at h
  cases h1 : msgSetF res "uid" (FieldVal.str uidGen) with
  | none => simp [h1] at h
  | some r1 =>
  simp only [h1] at h
  cases h2 : msgSetF r1 "create_time" (FieldVal.ts now) with
  | none => simp [h2] at h
  | some r2 =>
  simp only [h2] at h
  generalize hr3 : (if (fieldByName r2.descr "update_time").isSome = true
      then msgSet r2 "update_time" (FieldVal.ts now) else r2) = r3 at h
  cases hn : fieldByName r3.descr "name" with
  | none => simp [hn] at h
  | some f =>
  simp only [hn] at h
  cases hget : getResource st (msgGetStr r3 "name") res.descr.fullName with
  | ok m0 => simp [hget] at h
  | panics => simp [hget] at h
  | err e =>
  cases e with
  | notFound =>
    simp only [hget] at h
    cases hut2 : fieldByName r3.descr "update_time" with
    | none => simp [hut2] at h
    | some fu =>
    simp only [hut2] at h
    rw [Prod.mk.injEq, Prod.mk.injEq] at h
    obtain ⟨hv, htx, hst⟩ := h
    rw [Outcome.ok.injEq] at hv
    subst hv
    exact ⟨_, hst.symm, rfl, rfl⟩
  | unknownType t => simp [hget] at h
  | alreadyExists => simp [hget] at h
  | aborted => simp [hget] at h
  | scanError => simp [hget] at h
  | schemaError => simp [hget] at h

theorem mem_tableRows_insertRow {st : ServerState} {tn : String} {row : Row}
    {tname : String} {r : Row} (h : r ∈ tableRows (insertRow st tn row) tname) :
    r ∈ tableRows st tname ∨ r = row := by
  unfold insertRow at h
  by_cases he : tname = tn
  · subst he
    rw [tableRows_setTable_self] at h
    rcases List.mem_append.mp h with h | h
    · exact Or.inl h
    · simp at h
      exact Or.inr h
  · left
    unfold tableRows at h ⊢
    rw [lookupA_setTable_ne _ _ _ _ he] at h
    exact h

theorem mem_tableRows_updated {st : ServerState} {tn wn : String} {ut : Nat}
    {dt : Option Nat} {p : Msg} {tname : String} {r : Row}
    (h : r ∈ tableRows
      ⟨st.resources, setTable st.tables tn (updateRows (tableRows st tn) wn ut dt p)⟩
      tname) :
    r ∈ tableRows st tname ∨ r.data = p := by
  by_cases he : tname = tn
  · subst he
    rw [tableRows_setTable_self] at h
    exact mem_updateRows h
  · left
    unfold tableRows at h ⊢
    rw [lookupA_setTable_ne _ _ _ _ he] at h
    exact h

/-! ### Claim theorems -/

/-- C1 (counterexample evidence, code bug): the mutate callback of
`UpdateResource` ignores the existing stored value.  With the account
`accounts/a1` stored with `display_name = "Joe"`, an update whose mask is
`["annotations"]` (so `display_name` is NOT in the mask) and whose incoming
value carries `display_name = "Hacked"` returns the incoming value
wholesale: the unmasked `display_name` becomes `"Hacked"` instead of
staying `"Joe"`, and the stored output-only `uid` (`"u1"`) is absent from
the returned value — contradicting the claimed mask-merge semantics. -/
theorem c1_update_mask_merge_ignored :
    (UpdateResource c1State 7 c1Incoming ["annotations"]).1 =
      Outcome.ok (msgSet c1Incoming "update_time" (FieldVal.ts 7)) ∧
    msgGetStr (msgSet c1Incoming "update_time" (FieldVal.ts 7)) "display_name" = "Hacked" ∧
    msgGet (msgSet c1Incoming "update_time" (FieldVal.ts 7)) "uid" = none ∧
    getResource c1State "accounts/a1" "features.Account" = Outcome.ok c1Existing ∧
    msgGetStr c1Existing "display_name" = "Joe" ∧
    msgGetStr c1Existing "uid" = "u1" := by
  refine ⟨by decide, by decide, by decide, by decide, by decide, by decide⟩

/-- C2 (counterexample evidence, code bug): the List query names six
columns — it omits `delete_time` — while the shared row decoder
`scanResource` scans seven destinations, so decoding fails with a scan
error for every row a List returns, although Get decodes the very same
stored row successfully. -/
theorem c2_list_query_omits_delete_time :
    listQueryCols.length = 6 ∧ getQueryCols.length = 7 ∧
    (∀ r : Row, scanResource (selectVals listQueryCols r) =
      Outcome.err EngineError.scanError) ∧
    ListResources c1State "" "features.Account" 0 = Outcome.err EngineError.scanError ∧
    getResource c1State "accounts/a1" "features.Account" = Outcome.ok c1Existing := by
  refine ⟨rfl, rfl, scanResource_listRow, by decide, by decide⟩

/-- C4 (counterexample evidence, code bug): after a failure inside an open
transaction the engine returns without rolling back.  Deleting a missing
resource fails NotFound with the transaction left open, and a Create that
hits the AlreadyExists check likewise leaves its transaction open; neither
path produces a rollback. -/
theorem c4_transaction_left_open_on_error :
    DeleteResource c1State 3 4 "accounts/missing" "features.Account" =
      (Outcome.err EngineError.notFound, TxEnd.leftOpen, c1State) ∧
    CreateResource c1State "u2" 5 "" c1Incoming =
      (Outcome.err EngineError.alreadyExists, TxEnd.leftOpen, c1State) ∧
    TxEnd.leftOpen ≠ TxEnd.rolledBack := by
  refine ⟨by decide, by decide, by decide⟩

/-- C3: on a type whose decoded existing value declares an `etag` field,
an atomic update whose updated value carries a different etag aborts with
Conflict, leaving the stored state unchanged (no write); when no `etag`
field is declared, the conflict check is false and the operation never
fails with Conflict. -/
theorem c3_etag_conflict (st : ServerState) (now : Nat) (nm typ : String)
    (updater : Msg → Outcome Msg) (existing updated : Msg)
    (hget : getResource st nm typ = Outcome.ok existing)
    (hupd : updater existing = Outcome.ok updated) :
    ((fieldByName existing.descr "etag").isSome →
       msgGetStr existing "etag" ≠ msgGetStr updated "etag" →
       atomicUpdateResource st now nm typ updater =
         (Outcome.err EngineError.aborted, TxEnd.leftOpen, st)) ∧
    (fieldByName existing.descr "etag" = none →
       updatesConflict existing updated = false ∧
       (atomicUpdateResource st now nm typ updater).1 ≠
         Outcome.err EngineError.aborted) := by
  constructor
  · intro hsome hne
    obtain ⟨f, hf⟩ := Option.isSome_iff_exists.mp hsome
    have hc : updatesConflict existing updated = true := by
      simp only [updatesConflict, hf]
      exact decide_eq_true hne
    exact atomicUpdate_conflict st now nm typ updater existing updated hget hupd hc
  · intro hnone
    have hc : updatesConflict existing updated = false := by
      simp [updatesConflict, hnone]
    exact ⟨hc, atomicUpdate_no_conflict_not_aborted st now nm typ updater
      existing updated hget hupd hc⟩

/-- C3 witness: concrete etag mismatch on `features.Doc` aborts with
Conflict and leaves the state unchanged; on the etag-less
`features.Account` the conflict check is false and the update is never
aborted. -/
theorem c3_etag_conflict_witness :
    atomicUpdateResource docState 9 "docs/d1" "features.Doc" docUpdater =
      (Outcome.err EngineError.aborted, TxEnd.leftOpen, docState) ∧
    (updatesConflict c1Existing c1Existing = false ∧
     (atomicUpdateResource c1State 9 "accounts/a1" "features.Account" idUpdater).1 ≠
       Outcome.err EngineError.aborted) :=
  ⟨(c3_etag_conflict docState 9 "docs/d1" "features.Doc" docUpdater docExisting
      (msgSet docExisting "etag" (FieldVal.str "v2")) (by decide) rfl).1
      (by decide) (by decide),
   (c3_etag_conflict c1State 9 "accounts/a1" "features.Account" idUpdater c1Existing
      c1Existing (by decide) rfl).2 (by decide)⟩

/-- C9: `DeleteResource` on a resource whose decoded type declares no
`delete_time` field panics (the callback calls `Set` on a nil field
descriptor) instead of returning an error; when the field is declared the
delete callback is total and stamps `delete_time`. -/
theorem c9_delete_panics_without_delete_time (st : ServerState) (nd nu : Nat)
    (nm typ : String) (existing : Msg)
    (hget : getResource st nm typ = Outcome.ok existing)
    (hno : fieldByName existing.descr "delete_time" = none) :
    DeleteResource st nd nu nm typ = (Outcome.panics, TxEnd.leftOpen, st) ∧
    (∀ existing2 : Msg, (fieldByName existing2.descr "delete_time").isSome →
       deleteMutate nd existing2 =
         Outcome.ok (msgSet existing2 "delete_time" (FieldVal.ts nd))) := by
  constructor
  · obtain ⟨d, hd⟩ := getResource_lookup hget
    unfold DeleteResource atomicUpdateResource
    simp only [hd, hget]
    simp [deleteMutate, hno]
  · intro e2 h2
    obtain ⟨f, hf⟩ := Option.isSome_iff_exists.mp h2
    unfold deleteMutate
    rw [hf]

/-- C9 witness: deleting the stored `gadgets/g1`, whose schema lacks
`delete_time`, panics with the transaction left open and no state change. -/
theorem c9_delete_panics_witness :
    DeleteResource gadgetState 2 3 "gadgets/g1" "features.Gadget" =
      (Outcome.panics, TxEnd.leftOpen, gadgetState) :=
  (c9_delete_panics_without_delete_time gadgetState 2 3 "gadgets/g1" "features.Gadget"
    gadgetExisting (by decide) (by decide)).1

/-- C10: `assertRegisteredResourceType` is inverted — it succeeds (returns
no error) exactly when the type is NOT in the registry, and returns the
unknown-resource-type error exactly when the type IS registered. -/
theorem c10_assert_registered_inverted (st : ServerState) (typ : String) :
    (assertRegisteredResourceType st typ = none ↔ lookupA st.resources typ = none) ∧
    (∀ d, lookupA st.resources typ = some d →
       assertRegisteredResourceType st typ = some (EngineError.unknownType typ)) := by
  unfold assertRegisteredResourceType
  cases h : lookupA st.resources typ with
  | none => simp
  | some d => simp

/-- C10 witness: on `c1State` the registered `features.Account` is
rejected as unknown while the unregistered `features.Missing` passes. -/
theorem c10_assert_registered_witness :
    assertRegisteredResourceType c1State "features.Account" =
      some (EngineError.unknownType "features.Account") ∧
    assertRegisteredResourceType c1State "features.Missing" = none :=
  ⟨(c10_assert_registered_inverted c1State "features.Account").2 accountDescr (by decide),
   (c10_assert_registered_inverted c1State "features.Missing").1.mpr (by decide)⟩

/-- C5: for a registered type whose schema declares uid, name,
create_time and update_time, Create fails AlreadyExists and inserts
nothing when a row with the resource's name already exists (and decodes),
and otherwise, when the name is absent, inserts exactly one row carrying
the stamped value's columns and the stripped payload, and returns the
fully-stamped value. -/
theorem c5_create_unique_name (st : ServerState) (uidGen : String) (now : Nat)
    (parent : String) (res : Msg)
    (hreg : (lookupA st.resources res.descr.fullName).isSome)
    (huid : (fieldByName res.descr "uid").isSome)
    (hct : (fieldByName res.descr "create_time").isSome)
    (hut : (fieldByName res.descr "update_time").isSome)
    (hnm : (fieldByName res.descr "name").isSome) :
    ((∃ m, getResource st (msgGetStr res "name") res.descr.fullName = Outcome.ok m) →
       CreateResource st uidGen now parent res =
         (Outcome.err EngineError.alreadyExists, TxEnd.leftOpen, st)) ∧
    (getResource st (msgGetStr res "name") res.descr.fullName =
        Outcome.err EngineError.notFound →
       CreateResource st uidGen now parent res =
         (Outcome.ok (createStamped res uidGen now), TxEnd.committed,
          insertRow st (getResourceTableName res.descr)
            ⟨uidGen, msgGetStr res "name", parent, now, now, none,
             clearOutputOnlyFields (createStamped res uidGen now)⟩)) := by
  obtain ⟨d, hd⟩ := Option.isSome_iff_exists.mp hreg
  obtain ⟨fn, hfn⟩ := Option.isSome_iff_exists.mp hnm
  obtain ⟨fu, hfu⟩ := Option.isSome_iff_exists.mp hut
  have hct2 : (fieldByName (msgSet res "uid" (FieldVal.str uidGen)).descr
      "create_time").isSome := hct
  have hcond : (fieldByName (msgSet (msgSet res "uid" (FieldVal.str uidGen))
      "create_time" (FieldVal.ts now)).descr "update_time").isSome = true := hut
  have hname3 : msgGetStr (msgSet (msgSet (msgSet res "uid" (FieldVal.str uidGen))
      "create_time" (FieldVal.ts now)) "update_time" (FieldVal.ts now)) "name" =
      msgGetStr res "name" := by
    simp [msgGetStr, msgGet_msgSet]
  have huid3 : msgGetStr (msgSet (msgSet (msgSet res "uid" (FieldVal.str uidGen))
      "create_time" (FieldVal.ts now)) "update_time" (FieldVal.ts now)) "uid" =
      uidGen := by
    simp [msgGetStr, msgGet_msgSet]
  have hct3 : getTs (msgSet (msgSet (msgSet res "uid" (FieldVal.str uidGen))
      "create_time" (FieldVal.ts now)) "update_time" (FieldVal.ts now)) "create_time" =
      now := by
    simp [getTs, msgGet_msgSet]
  have hut3 : getTs (msgSet (msgSet (msgSet res "uid" (FieldVal.str uidGen))
      "create_time" (FieldVal.ts now)) "update_time" (FieldVal.ts now)) "update_time" =
      now := by
    simp [getTs, msgGet_msgSet]
  constructor
  · intro hex
    obtain ⟨m, hm⟩ := hex
    unfold CreateResource
    simp only [hd]
    simp only [msgSetF_of_isSome (FieldVal.str uidGen) huid]
    simp only [msgSetF_of_isSome (FieldVal.ts now) hct2]
    rw [if_pos hcond]
    simp only [msgSet_descr, hfn]
    rw [hname3]
    simp only [hm]
  · intro hnf
    unfold CreateResource
    simp only [hd]
    simp only [msgSetF_of_isSome (FieldVal.str uidGen) huid]
    simp only [msgSetF_of_isSome (FieldVal.ts now) hct2]
    rw [if_pos hcond]
    simp only [msgSet_descr, hfn, hfu]
    rw [hname3]
    simp only [hnf]
    unfold createStamped
    rw [huid3, hct3, hut3]

/-- C5 witness: creating the already-stored `accounts/a1` fails
AlreadyExists leaving the state unchanged; creating the fresh
`accounts/b2` commits the insert of the stamped row. -/
theorem c5_create_unique_name_witness :
    CreateResource c1State "u9" 9 "" c1Incoming =
      (Outcome.err EngineError.alreadyExists, TxEnd.leftOpen, c1State) ∧
    CreateResource c1State "u9" 9 "" c5Fresh =
      (Outcome.ok (createStamped c5Fresh "u9" 9), TxEnd.committed,
       insertRow c1State (getResourceTableName accountDescr)
         ⟨"u9", "accounts/b2", "", 9, 9, none,
          clearOutputOnlyFields (createStamped c5Fresh "u9" 9)⟩) :=
  ⟨(c5_create_unique_name c1State "u9" 9 "" c1Incoming (by decide) (by decide)
      (by decide) (by decide) (by decide)).1 ⟨c1Existing, by decide⟩,
   (c5_create_unique_name c1State "u9" 9 "" c5Fresh (by decide) (by decide)
      (by decide) (by decide) (by decide)).2 (by decide)⟩

/-- C6: every row persisted by CreateResource or by the atomic update
protocol (Update, Delete, Undelete) carries a payload from which every
OUTPUT_ONLY field has been cleared: after a successful commit, each
stored row either already existed before the operation or its payload
blob is output-only-clean. -/
theorem c6_persisted_payload_clears_output_only (st st2 : ServerState) (v : Msg)
    (h : (∃ uidGen now parent res tx,
            CreateResource st uidGen now parent res = (Outcome.ok v, tx, st2)) ∨
         (∃ now nm typ updater tx,
            atomicUpdateResource st now nm typ updater = (Outcome.ok v, tx, st2))) :
    ∀ tname r, r ∈ tableRows st2 tname →
      r ∈ tableRows st tname ∨ outputOnlyCleared r.data = true := by
  intro tname r hr
  rcases h with ⟨uidGen, now, parent, res, tx, hcr⟩ | ⟨now, nm, typ, updater, tx, hcr⟩
  · obtain ⟨row, hst, hdata, _⟩ := create_ok hcr
    subst hst
    rcases mem_tableRows_insertRow hr with h1 | h1
    · exact Or.inl h1
    · right
      rw [h1, hdata]
      exact outputOnlyCleared_clearOutputOnlyFields v
  · obtain ⟨d, existing, updated, _h1, _h2, _h3, _h4, _h5, _h6, _h7, _h8, _h9, hst⟩ :=
      atomicUpdate_ok hcr
    subst hst
    rcases mem_tableRows_updated hr with h1 | h1
    · exact Or.inl h1
    · right
      rw [h1]
      exact outputOnlyCleared_clearOutputOnlyFields v

/-- C6 witness: the row inserted by creating `accounts/b2` was not in the
prior state, so the theorem yields that its stored payload is
output-only-clean. -/
theorem c6_persisted_payload_witness :
    c6Row ∈ tableRows c1State "account_resource" ∨
    outputOnlyCleared c6Row.data = true :=
  c6_persisted_payload_clears_output_only c1State c6State2 c6Value
    (Or.inl ⟨"u9", 9, "", c5Fresh, TxEnd.committed, by decide⟩)
    "account_resource" c6Row (by decide)

/-- C7: Get applies no filter on deleteTime — for a registered type whose
table holds a row with the requested name, Get is exactly the scan of
that row (soft-deleted or not), a decoded row with a non-null delete
column carries that deleteTime, and after a successful soft Delete the
subsequent Get succeeds and returns the deleteTime that Delete stamped;
Get yields NotFound exactly when the type is registered but no row has
the requested name. -/
theorem c7_get_no_delete_filter (st : ServerState) (d : MessageDescr)
    (typ nm : String) (r : Row)
    (hreg : lookupA st.resources typ = some d)
    (hfind : (tableRows st (getResourceTableName d)).find?
      (fun row => row.name = nm) = some r)
    (hdescr : r.data.descr = d) :
    getResource st nm typ = scanResource (selectVals getQueryCols r) ∧
    (∀ m t, scanResource (selectVals getQueryCols r) = Outcome.ok m →
       r.deleteTime = some t → msgGet m "delete_time" = some (FieldVal.ts t)) ∧
    (∀ nd nu v st2, DeleteResource st nd nu nm typ = (Outcome.ok v, TxEnd.committed, st2) →
       ∃ m2, getResource st2 nm typ = Outcome.ok m2 ∧
             msgGet m2 "delete_time" = some (FieldVal.ts nd)) ∧
    (∀ st3 nm3 typ3, getResource st3 nm3 typ3 = Outcome.err EngineError.notFound →
       ∃ d3, lookupA st3.resources typ3 = some d3 ∧
         (tableRows st3 (getResourceTableName d3)).find?
           (fun row => row.name = nm3) = none) := by
  have hGet := getResource_unfold_found st d typ nm r hreg hfind
  refine ⟨hGet, ?_, ?_, ?_⟩
  · intro m t hscan hdt
    exact (scan_ok_spec r m hscan).2.2.2.2.2.2 t hdt
  · intro nd nu v st2 hdel
    have hdel2 : atomicUpdateResource st nu nm typ (deleteMutate nd) =
        (Outcome.ok v, TxEnd.committed, st2) := hdel
    obtain ⟨d2, existing, updated, hd2, hget2, hupd2, hc2, hu2, hn2, hdelf2, hv, _htx, hst⟩ :=
      atomicUpdate_ok hdel2
    rw [hreg] at hd2
    obtain rfl : d = d2 := Option.some.inj hd2
    rw [hGet] at hget2
    obtain ⟨hdescr2, huidp, hnamep, hctp, hutp, hnameval, _hdelval⟩ :=
      scan_ok_spec r existing hget2
    have hdelf3 : (fieldByName existing.descr "delete_time").isSome := by
      cases hf : fieldByName existing.descr "delete_time" with
      | none =>
        unfold deleteMutate at hupd2
        simp [hf] at hupd2
      | some f => simp
    obtain ⟨fdel, hfdel⟩ := Option.isSome_iff_exists.mp hdelf3
    have hupd3 : updated = msgSet existing "delete_time" (FieldVal.ts nd) := by
      unfold deleteMutate at hupd2
      simp only [hfdel] at hupd2
      exact (Outcome.ok.inj hupd2).symm
    have hvdescr : v.descr = d := by
      rw [hv, hupd3, msgSet_descr, msgSet_descr, hdescr2, hdescr]
    have hrname : r.name = nm := by
      have hp := List.find?_some hfind
      simpa using hp
    have hvname : msgGetStr v "name" = nm := by
      rw [hv, hupd3]
      have h1 : msgGetStr (msgSet (msgSet existing "delete_time" (FieldVal.ts nd))
          "update_time" (FieldVal.ts nu)) "name" = msgGetStr existing "name" := by
        simp [msgGetStr, msgGet_msgSet]
      rw [h1, hnameval, hrname]
    have hvut : getTs v "update_time" = nu := by
      rw [hv]
      simp [getTs, msgGet_msgSet]
    have hvdel : msgGet v "delete_time" = some (FieldVal.ts nd) := by
      rw [hv, hupd3]
      simp [msgGet_msgSet]
    simp only [hvdescr, hvname, hvut, hvdel] at hst
    have hfind2 : (tableRows st2 (getResourceTableName d)).find?
        (fun row => row.name = nm) =
        some ({r with updateTime := nu, deleteTime := some nd, data := clearOutputOnlyFields v}) := by
      rw [hst, tableRows_setTable_self]
      unfold updateRows
      rw [find?_map_eq _ (updRow_name nm nu (some nd) (clearOutputOnlyFields v)) _ nm]
      rw [hfind]
      simp [hrname]
    have hdd : (clearOutputOnlyFields v).descr = d := by
      rw [clearOutputOnlyFields_descr, hvdescr]
    have huid2 : (fieldByName (clearOutputOnlyFields v).descr "uid").isSome := by
      rw [hdd, ← hdescr]
      exact huidp
    have hname2 : (fieldByName (clearOutputOnlyFields v).descr "name").isSome := by
      rw [hdd, ← hdescr]
      exact hnamep
    have hct2 : (fieldByName (clearOutputOnlyFields v).descr "create_time").isSome := by
      rw [hdd, ← hdescr]
      exact hctp
    have hut2 : (fieldByName (clearOutputOnlyFields v).descr "update_time").isSome := by
      rw [hdd, ← hdescr]
      exact hutp
    have hdelp : (fieldByName (clearOutputOnlyFields v).descr "delete_time").isSome := by
      rw [hdd]
      have h2 := hdelf2
      rw [hupd3, msgSet_descr, hdescr2, hdescr] at h2
      exact h2
    obtain ⟨m2, hscan2, _hn2, hdelget⟩ := scan_ok_build
      ({r with updateTime := nu, deleteTime := some nd, data := clearOutputOnlyFields v})
      huid2 hname2 hct2 hut2 (fun t _ => hdelp)
    have hreg2 : lookupA st2.resources typ = some d := by
      rw [hst]
      exact hreg
    have hget3 := getResource_unfold_found st2 d typ nm _ hreg2 hfind2
    refine ⟨m2, ?_, hdelget nd rfl⟩
    rw [hget3]
    exact hscan2
  · intro st3 nm3 typ3 h3
    exact (getResource_notFound_iff st3 nm3 typ3).mp h3

/-- C7 witness: Get on the stored `accounts/a1` is the scan of its row,
and after the concrete soft delete at instant 3 the subsequent Get
succeeds with `delete_time = 3`. -/
theorem c7_get_no_delete_filter_witness :
    getResource c1State "accounts/a1" "features.Account" =
      scanResource (selectVals getQueryCols c1Row) ∧
    (∃ m2, getResource c7DeletedState "accounts/a1" "features.Account" = Outcome.ok m2 ∧
       msgGet m2 "delete_time" = some (FieldVal.ts 3)) :=
  ⟨(c7_get_no_delete_filter c1State accountDescr "features.Account" "accounts/a1" c1Row
      (by decide) (by decide) rfl).1,
   (c7_get_no_delete_filter c1State accountDescr "features.Account" "accounts/a1" c1Row
      (by decide) (by decide) rfl).2.2.1 3 4 c7DeletedValue c7DeletedState (by decide)⟩

/-- C8: registration fails (with the schema error) if and only if the
type lacks the resource annotation; otherwise it succeeds, records the
descriptor under its full name leaving every other registry entry
unchanged, changes no table contents (create-if-not-exists), and a
repeated registration returns the same state. -/
theorem c8_register_descriptor (st : ServerState) (d : MessageDescr) :
    ((∃ e, CreateResourceDescriptor st d = Except.error e) ↔
      d.resourceAnnotated = false) ∧
    (∀ e, CreateResourceDescriptor st d = Except.error e →
      e = EngineError.schemaError) ∧
    (d.resourceAnnotated = true →
      ∃ st2, CreateResourceDescriptor st d = Except.ok st2 ∧
        lookupA st2.resources d.fullName = some d ∧
        (∀ t, t ≠ d.fullName → lookupA st2.resources t = lookupA st.resources t) ∧
        (∀ tn, tableRows st2 tn = tableRows st tn) ∧
        CreateResourceDescriptor st2 d = Except.ok st2) := by
  cases hann : d.resourceAnnotated with
  | false =>
    refine ⟨by simp [CreateResourceDescriptor, hann], ?_, by simp [hann]⟩
    intro e he
    simp [CreateResourceDescriptor, hann] at he
    exact he.symm
  | true =>
    refine ⟨by simp [CreateResourceDescriptor, hann], ?_, ?_⟩
    · intro e he
      simp [CreateResourceDescriptor, hann] at he
    · intro _
      cases htab : lookupA st.tables (getResourceTableName d) with
      | some rows0 =>
        refine ⟨⟨(d.fullName, d) :: removeKeyA st.resources d.fullName, st.tables⟩,
          ?_, ?_, ?_, ?_, ?_⟩
        · simp [CreateResourceDescriptor, hann, htab]
        · simp [lookupA]
        · intro t ht
          simp [lookupA, Ne.symm ht, lookupA_removeKeyA, ht]
        · intro tn
          rfl
        · simp [CreateResourceDescriptor, hann, htab, removeKeyA, removeKeyA_removeKeyA]
      | none =>
        refine ⟨⟨(d.fullName, d) :: removeKeyA st.resources d.fullName,
          (getResourceTableName d, ([] : List Row)) :: st.tables⟩, ?_, ?_, ?_, ?_, ?_⟩
        · simp [CreateResourceDescriptor, hann, htab]
        · simp [lookupA]
        · intro t ht
          simp [lookupA, Ne.symm ht, lookupA_removeKeyA, ht]
        · intro tn
          by_cases he : tn = getResourceTableName d
          · subst he
            simp [tableRows, lookupA, htab]
          · simp [tableRows, lookupA, Ne.symm he]
        · simp [CreateResourceDescriptor, hann, removeKeyA, removeKeyA_removeKeyA, lookupA]

/-- C8 witness: registering the annotated `features.Account` in the empty
state succeeds with all the stated registry and table properties, and
registering the unannotated `features.Plain` fails. -/
theorem c8_register_descriptor_witness :
    (∃ st2, CreateResourceDescriptor emptyState accountDescr = Except.ok st2 ∧
       lookupA st2.resources accountDescr.fullName = some accountDescr ∧
       (∀ t, t ≠ accountDescr.fullName →
         lookupA st2.resources t = lookupA emptyState.resources t) ∧
       (∀ tn, tableRows st2 tn = tableRows emptyState tn) ∧
       CreateResourceDescriptor st2 accountDescr = Except.ok st2) ∧
    (∃ e, CreateResourceDescriptor emptyState plainDescr = Except.error e) :=
  ⟨(c8_register_descriptor emptyState accountDescr).2.2 (by decide),
   (c8_register_descriptor emptyState plainDescr).1.mpr (by decide)⟩
